import Mathlib

/-!
Verification of the weighted-linear-fit core of the physics-lab analysis
scripts (gas-thermometer heating, specific heat of air, vapor-pressure
cooling).  The scripts fit a linear model by weighted least squares via
scipy.optimize.curve_fit with absolute_sigma=True, propagate parameter
covariance into derived physical quantities via the uncertainties package
(correlated_values and first-order arithmetic on uncertain values), and in
the cooling script run a fixed two-pass effective-variance refinement.
Exact arithmetic over the rationals stands in for floating point.
-/

open Finset

namespace LabFit

/-- Error raised by the fit when the normal-equations system is singular
(fewer than two distinct x-values), and the generic invalid-input error of
the spec contract.  Modelled from the spec: the scripts let
scipy.optimize.curve_fit raise on a singular system; the spec names this
condition SingularFitError. -/
inductive FitError where
  | singularFitError : FitError
  | invalidInput : FitError
deriving DecidableEq, Repr

/-- Error raised by the propagate contract when a computed variance is
negative.  Modelled from the spec: defensive check of section 7
(Negative propagated variance raises NumericalError). -/
inductive PropError where
  | numericalError : PropError
deriving DecidableEq, Repr

/-- Result of a weighted linear fit: slope m, intercept b, and the three
independent entries of the symmetric 2x2 covariance matrix
[[c00, c01], [c01, c11]] in (m, b) order. -/
structure FitResult where
  m : ℚ
  b : ℚ
  c00 : ℚ
  c01 : ℚ
  c11 : ℚ
deriving DecidableEq, Repr

/-- The linear model m*x + b fitted in all three scripts
(linear_model in v5_gas_thermometer_heating.py line 47,
v5_specific_heat.py line 70, v7_cooling.py line 72). -/
def linear_model (x m b : ℚ) : ℚ :=
  m * x + b

/-- Sum of weights 1/v_i, where v_i is the per-point variance. -/
def sumW (v : Fin n → ℚ) : ℚ :=
  ∑ i, 1 / v i

/-- Weighted sum of the x-values. -/
def sumWx (x v : Fin n → ℚ) : ℚ :=
  ∑ i, x i / v i

/-- Weighted sum of the y-values. -/
def sumWy (y v : Fin n → ℚ) : ℚ :=
  ∑ i, y i / v i

/-- Weighted sum of the squared x-values. -/
def sumWxx (x v : Fin n → ℚ) : ℚ :=
  ∑ i, (x i) ^ 2 / v i

/-- Weighted sum of the products x_i * y_i. -/
def sumWxy (x y v : Fin n → ℚ) : ℚ :=
  ∑ i, x i * y i / v i

/-- Determinant of the weighted normal-equations matrix
[[sumWxx, sumWx], [sumWx, sumW]]; zero exactly when the system is
singular. -/
def delta (x v : Fin n → ℚ) : ℚ :=
  sumW v * sumWxx x v - (sumWx x v) ^ 2

/-- Modelled from the spec: closed-form weighted linear least squares, the
documented behaviour of scipy.optimize.curve_fit (library code, not under
src/) applied to linear_model with absolute_sigma=True and per-point
variances v_i.  Minimizes the chi-square sum of (y_i - m*x_i - b)^2 / v_i
and returns the covariance as the exact inverse of the normal-equations
matrix, raising SingularFitError on a singular system. -/
def fitWLSvar (x y v : Fin n → ℚ) : Except FitError FitResult :=
  if delta x v = 0 then .error .singularFitError
  else .ok
    { m := (sumW v * sumWxy x y v - sumWx x v * sumWy y v) / delta x v
      b := (sumWxx x v * sumWy y v - sumWx x v * sumWxy x y v) / delta x v
      c00 := sumW v / delta x v
      c01 := -(sumWx x v) / delta x v
      c11 := sumWxx x v / delta x v }

/-- The sigma-based entry point matching the calls
curve_fit(linear_model, x, y, sigma, absolute_sigma=True): per-point
standard deviations sigma_i enter only through their squares. -/
def fitWLS (x y σ : Fin n → ℚ) : Except FitError FitResult :=
  fitWLSvar x y fun i => (σ i) ^ 2

/-- The weighted chi-square objective
sum of ((y_i - linear_model x_i m b) / sigma_i)^2 that the fit minimizes. -/
def chi2 (x y σ : Fin n → ℚ) (m b : ℚ) : ℚ :=
  ∑ i, ((y i - linear_model (x i) m b) / σ i) ^ 2

/-- Variance-weighted form of the chi-square objective. -/
def chi2v (x y v : Fin n → ℚ) (m b : ℚ) : ℚ :=
  ∑ i, (y i - (m * x i + b)) ^ 2 / v i

/-- First-order gradient-covariance quadratic form
grad . Cov . grad with Cov = [[c00, c01], [c01, c11]]. -/
def gradVar (c00 c01 c11 dgm dgb : ℚ) : ℚ :=
  dgm ^ 2 * c00 + 2 * dgm * dgb * c01 + dgb ^ 2 * c11

/-- Symmetric positive semidefiniteness of the 2x2 covariance matrix
[[c00, c01], [c01, c11]]: non-negative diagonal and non-negative
determinant. -/
def PSD2 (c00 c01 c11 : ℚ) : Prop :=
  0 ≤ c00 ∧ 0 ≤ c11 ∧ c01 ^ 2 ≤ c00 * c11

instance (c00 c01 c11 : ℚ) : Decidable (PSD2 c00 c01 c11) := by
  unfold PSD2; infer_instance

/-- Modelled from the spec: the propagate contract of section 4.1
(the scripts delegate it to the uncertainties package, library code not
under src/).  Given the fitted values, the covariance entries, a scalar
function g and its gradient at (m, b), returns the propagated value
g m b together with the propagated variance, failing with NumericalError
when that variance is negative; the propagated sigma is the real square
root of the returned variance. -/
def propagate (m b c00 c01 c11 : ℚ) (g : ℚ → ℚ → ℚ) (dgm dgb : ℚ) :
    Except PropError (ℚ × ℚ) :=
  if gradVar c00 c01 c11 dgm dgb < 0 then .error .numericalError
  else .ok (g m b, gradVar c00 c01 c11 dgm dgb)

end LabFit

namespace Cooling

open LabFit

/-- Per-point pressure uncertainty of the cooling script:
sigma_p = 0.01 * p_bar (v7_cooling.py line 62). -/
def sigma_p (p_bar : Fin n → ℚ) (i : Fin n) : ℚ :=
  (1 / 100) * p_bar i

/-- Log-space y-uncertainty of the cooling script:
y_err = sigma_p / p_bar (v7_cooling.py line 69). -/
def y_err (p_bar : Fin n → ℚ) (i : Fin n) : ℚ :=
  sigma_p p_bar i / p_bar i

/-- Squared pass-2 effective uncertainty of the cooling script:
sigma_eff = sqrt(y_err^2 + (m_init * x_err)^2) (v7_cooling.py line 80);
only this square enters the weights of the second fit. -/
def sigma_eff_sq (yerr xerr : Fin n → ℚ) (m0 : ℚ) (i : Fin n) : ℚ :=
  (yerr i) ^ 2 + (m0 * xerr i) ^ 2

/-- The two-pass effective-variance fit of v7_cooling.py lines 75-82:
pass 1 fits with y_err alone, its slope m_init fixes the effective
variances, and pass 2 refits once with those. -/
def coolingFit (x y yerr xerr : Fin n → ℚ) : Except FitError FitResult :=
  match fitWLSvar x y (fun i => (yerr i) ^ 2) with
  | .error e => .error e
  | .ok r1 => fitWLSvar x y (sigma_eff_sq yerr xerr r1.m)

end Cooling

namespace LabFit

/-- An uncertain value as represented by the uncertainties package
(library code, not under src/): a nominal value together with the
first-order derivatives with respect to a fixed collection of underlying
correlated atoms. -/
structure UVal (k : ℕ) where
  val : ℚ
  grad : Fin k → ℚ

/-- Constant (exact) uncertain value. -/
def UVal.const (c : ℚ) : UVal k :=
  { val := c, grad := fun _ => 0 }

/-- Sum of uncertain values. -/
def UVal.add (a b : UVal k) : UVal k :=
  { val := a.val + b.val, grad := fun i => a.grad i + b.grad i }

/-- Difference of uncertain values. -/
def UVal.sub (a b : UVal k) : UVal k :=
  { val := a.val - b.val, grad := fun i => a.grad i - b.grad i }

/-- First-order product of uncertain values. -/
def UVal.mul (a b : UVal k) : UVal k :=
  { val := a.val * b.val, grad := fun i => a.val * b.grad i + b.val * a.grad i }

/-- First-order quotient of a constant by an uncertain value: the
derivative of c / u is -c / u.val squared times the derivative of u. -/
def UVal.cdiv (c : ℚ) (u : UVal k) : UVal k :=
  { val := c / u.val, grad := fun i => -(c / u.val ^ 2) * u.grad i }

/-- Propagated variance of an uncertain value: the gradient-covariance
quadratic form over the underlying atoms. -/
def uvariance (C : Fin k → Fin k → ℚ) (u : UVal k) : ℚ :=
  ∑ i, ∑ j, u.grad i * C i j * u.grad j

end LabFit

namespace SpecificHeat

open LabFit

/-- Vessel volume of v5_specific_heat.py line 36: VOLUME_VAL = 3.2e-3. -/
def VOLUME_VAL : ℚ := 32 / 10000

/-- Volume uncertainty of v5_specific_heat.py line 30: V_ERR = 0.000129. -/
def V_ERR : ℚ := 129 / 1000000

/-- The fitted slope as an uncertain value: atom 0 of the correlated pair
returned by correlated_values(popt, pcov). -/
def slopeU (m : ℚ) : UVal 3 :=
  { val := m, grad := ![1, 0, 0] }

/-- The fitted intercept as an uncertain value: atom 1 of the correlated
pair returned by correlated_values(popt, pcov). -/
def interceptU (b : ℚ) : UVal 3 :=
  { val := b, grad := ![0, 1, 0] }

/-- VOLUME = ufloat(VOLUME_VAL, V_ERR) of v5_specific_heat.py line 39:
an uncertain value independent of the fit parameters, atom 2. -/
def volumeU : UVal 3 :=
  { val := VOLUME_VAL, grad := ![0, 0, 1] }

/-- kappa = slope * VOLUME + 1 of v5_specific_heat.py line 81. -/
def kappaU (m : ℚ) : UVal 3 :=
  ((slopeU m).mul volumeU).add (UVal.const 1)

/-- f_measured = 2.0 / (kappa - 1) of v5_specific_heat.py line 87. -/
def fMeasuredU (m : ℚ) : UVal 3 :=
  UVal.cdiv 2 ((kappaU m).sub (UVal.const 1))

/-- Covariance of the underlying atoms: the 2x2 fit covariance pcov on the
slope and intercept atoms, and the independent volume atom with variance
V_ERR squared. -/
def specCov (c00 c01 c11 : ℚ) : Fin 3 → Fin 3 → ℚ :=
  ![![c00, c01, 0], ![c01, c11, 0], ![0, 0, V_ERR ^ 2]]

end SpecificHeat

namespace Heating

open LabFit

/-- Outcome of the operating-system read of the input file, as seen by
pandas.read_csv: success with parsed data, a missing file raising
FileNotFoundError, or a present but unreadable file raising
PermissionError. -/
inductive ReadResult (α : Type) where
  | ok : α → ReadResult α
  | fileNotFound : ReadResult α
  | permissionDenied : ReadResult α
deriving DecidableEq, Repr

/-- A fault that escapes every handler in the script and terminates the
process with a traceback. -/
inductive ScriptFault where
  | unhandledFault : ScriptFault
deriving DecidableEq, Repr

/-- SIGMA_P = 5.0, the pressure uncertainty of
v5_gas_thermometer_heating.py line 26. -/
def SIGMA_P : ℚ := 5

/-- The two columns extracted by v5_gas_thermometer_heating.py
lines 43-44. -/
structure HeatingData (n : ℕ) where
  T_celsius : Fin n → ℚ
  p_hPa : Fin n → ℚ

/-- load_lab_data of v5_gas_thermometer_heating.py lines 30-38: the try
block catches FileNotFoundError only, printing a message and returning
None; any other read failure, such as PermissionError for an unreadable
file, escapes unhandled. -/
def load_lab_data (r : ReadResult α) : Except ScriptFault (Option α) :=
  match r with
  | .ok d => .ok (some d)
  | .fileNotFound => .ok none
  | .permissionDenied => .error .unhandledFault

/-- What a completed run did: whether the fit and propagation were
computed, and whether the report and plot files were written. -/
structure RunOutcome where
  computed : Bool
  outputsWritten : Bool
deriving DecidableEq, Repr

/-- The guarded body of v5_gas_thermometer_heating.py lines 42-118:
if the loaded frame is None the entire analysis block is skipped and the
script ends cleanly having written nothing; otherwise the fit runs and,
when it succeeds, the report and plot are written.  A fit failure, like
any fault past the load, is uncaught. -/
def heatingRun (input : ReadResult (HeatingData n)) :
    Except ScriptFault RunOutcome :=
  match load_lab_data input with
  | .error e => .error e
  | .ok none => .ok { computed := false, outputsWritten := false }
  | .ok (some d) =>
    match fitWLS d.T_celsius d.p_hPa (fun _ => SIGMA_P) with
    | .error _ => .error .unhandledFault
    | .ok _ => .ok { computed := true, outputsWritten := true }

end Heating

namespace LabFit

lemma delta_eq_zero_of_const (x v : Fin n → ℚ) (hx : ∀ i j, x i = x j) :
    delta x v = 0 := by
  by_cases hn : n = 0
  · subst hn
    unfold delta sumW sumWx sumWxx
    simp
  · have i0 : Fin n := ⟨0, Nat.pos_of_ne_zero hn⟩
    have e1 : sumWx x v = x i0 * sumW v := by
      unfold sumWx sumW
      rw [Finset.mul_sum]
      exact Finset.sum_congr rfl fun i _ => by rw [hx i i0]; ring
    have e2 : sumWxx x v = x i0 ^ 2 * sumW v := by
      unfold sumWxx sumW
      rw [Finset.mul_sum]
      exact Finset.sum_congr rfl fun i _ => by rw [hx i i0]; ring
    unfold delta
    rw [e1, e2]
    ring

lemma weighted_q (x v : Fin n → ℚ) (t : ℚ) :
    ∑ i, (1 / v i) * (x i - t) ^ 2
      = sumWxx x v - 2 * t * sumWx x v + t ^ 2 * sumW v := by
  unfold sumWxx sumWx sumW
  rw [Finset.mul_sum, Finset.mul_sum, ← Finset.sum_sub_distrib,
    ← Finset.sum_add_distrib]
  exact Finset.sum_congr rfl fun i _ => by ring

lemma delta_pos (x v : Fin n → ℚ) (hv : ∀ i, 0 < v i)
    (i0 j0 : Fin n) (hne : x i0 ≠ x j0) :
    0 < delta x v := by
  have hS : 0 < sumW v :=
    Finset.sum_pos (fun i _ => one_div_pos.2 (hv i)) ⟨i0, Finset.mem_univ i0⟩
  set t : ℚ := sumWx x v / sumW v with ht
  have hterm : ∀ i : Fin n, 0 ≤ (1 / v i) * (x i - t) ^ 2 := fun i =>
    mul_nonneg (le_of_lt (one_div_pos.2 (hv i))) (sq_nonneg _)
  have hpos_at : ∀ i : Fin n, x i ≠ t → 0 < (1 / v i) * (x i - t) ^ 2 := by
    intro i hi
    refine mul_pos (one_div_pos.2 (hv i)) ?_
    exact lt_of_le_of_ne (sq_nonneg _) (Ne.symm (pow_ne_zero 2 (sub_ne_zero.2 hi)))
  have hqpos : 0 < ∑ i, (1 / v i) * (x i - t) ^ 2 := by
    by_cases hi : x i0 = t
    · have hj : x j0 ≠ t := fun h => hne (by rw [hi, h])
      exact Finset.sum_pos' (fun i _ => hterm i)
        ⟨j0, Finset.mem_univ j0, hpos_at j0 hj⟩
    · exact Finset.sum_pos' (fun i _ => hterm i)
        ⟨i0, Finset.mem_univ i0, hpos_at i0 hi⟩
  have hdec : delta x v = sumW v * (∑ i, (1 / v i) * (x i - t) ^ 2) := by
    rw [weighted_q, ht]
    unfold delta
    field_simp
    ring
  rw [hdec]
  exact mul_pos hS hqpos

lemma chi2v_shift (x y v : Fin n → ℚ) (m b dm db : ℚ)
    (h1 : sumWxy x y v - m * sumWxx x v - b * sumWx x v = 0)
    (h2 : sumWy y v - m * sumWx x v - b * sumW v = 0) :
    chi2v x y v (m + dm) (b + db)
      = chi2v x y v m b + ∑ i, (dm * x i + db) ^ 2 / v i := by
  have key : ∀ i : Fin n, (y i - ((m + dm) * x i + (b + db))) ^ 2 / v i
      = (y i - (m * x i + b)) ^ 2 / v i + (dm * x i + db) ^ 2 / v i
        - 2 * dm * (x i * y i / v i - m * ((x i) ^ 2 / v i) - b * (x i / v i))
        - 2 * db * (y i / v i - m * (x i / v i) - b * (1 / v i)) := by
    intro i; ring
  have hC : (∑ i, (x i * y i / v i - m * ((x i) ^ 2 / v i) - b * (x i / v i)))
      = sumWxy x y v - m * sumWxx x v - b * sumWx x v := by
    unfold sumWxy sumWxx sumWx
    rw [Finset.sum_sub_distrib, Finset.sum_sub_distrib, ← Finset.mul_sum,
      ← Finset.mul_sum]
  have hD : (∑ i, (y i / v i - m * (x i / v i) - b * (1 / v i)))
      = sumWy y v - m * sumWx x v - b * sumW v := by
    unfold sumWy sumWx sumW
    rw [Finset.sum_sub_distrib, Finset.sum_sub_distrib, ← Finset.mul_sum,
      ← Finset.mul_sum]
  calc chi2v x y v (m + dm) (b + db)
      = ∑ i, ((y i - (m * x i + b)) ^ 2 / v i + (dm * x i + db) ^ 2 / v i
          - 2 * dm * (x i * y i / v i - m * ((x i) ^ 2 / v i) - b * (x i / v i))
          - 2 * db * (y i / v i - m * (x i / v i) - b * (1 / v i))) := by
        unfold chi2v
        exact Finset.sum_congr rfl fun i _ => key i
    _ = (∑ i, (y i - (m * x i + b)) ^ 2 / v i)
          + (∑ i, (dm * x i + db) ^ 2 / v i)
          - 2 * dm * (∑ i, (x i * y i / v i - m * ((x i) ^ 2 / v i)
              - b * (x i / v i)))
          - 2 * db * (∑ i, (y i / v i - m * (x i / v i) - b * (1 / v i))) := by
        rw [Finset.sum_sub_distrib, Finset.sum_sub_distrib,
          Finset.sum_add_distrib, ← Finset.mul_sum, ← Finset.mul_sum]
    _ = chi2v x y v m b + ∑ i, (dm * x i + db) ^ 2 / v i := by
        rw [hC, hD, h1, h2]
        unfold chi2v
        ring

lemma normal_eq_alg (S Sx Sy Sxx Sxy : ℚ) (hΔ : S * Sxx - Sx ^ 2 ≠ 0) :
    Sxy - ((S * Sxy - Sx * Sy) / (S * Sxx - Sx ^ 2)) * Sxx
        - ((Sxx * Sy - Sx * Sxy) / (S * Sxx - Sx ^ 2)) * Sx = 0 ∧
    Sy - ((S * Sxy - Sx * Sy) / (S * Sxx - Sx ^ 2)) * Sx
        - ((Sxx * Sy - Sx * Sxy) / (S * Sxx - Sx ^ 2)) * S = 0 := by
  constructor <;> (field_simp; ring)

lemma normal_eqs (x y v : Fin n → ℚ) (hΔ : delta x v ≠ 0) :
    sumWxy x y v
        - ((sumW v * sumWxy x y v - sumWx x v * sumWy y v) / delta x v)
          * sumWxx x v
        - ((sumWxx x v * sumWy y v - sumWx x v * sumWxy x y v) / delta x v)
          * sumWx x v = 0 ∧
    sumWy y v
        - ((sumW v * sumWxy x y v - sumWx x v * sumWy y v) / delta x v)
          * sumWx x v
        - ((sumWxx x v * sumWy y v - sumWx x v * sumWxy x y v) / delta x v)
          * sumW v = 0 := by
  have h := normal_eq_alg (sumW v) (sumWx x v) (sumWy y v) (sumWxx x v)
    (sumWxy x y v) (by unfold delta at hΔ; exact hΔ)
  unfold delta
  exact h

lemma chi2_eq_chi2v (x y σ : Fin n → ℚ) (m b : ℚ) :
    chi2 x y σ m b = chi2v x y (fun i => (σ i) ^ 2) m b := by
  unfold chi2 chi2v linear_model
  exact Finset.sum_congr rfl fun i _ => div_pow _ _ 2

lemma gradVar_nonneg (c00 c01 c11 dgm dgb : ℚ) (h : PSD2 c00 c01 c11) :
    0 ≤ gradVar c00 c01 c11 dgm dgb := by
  obtain ⟨h0, h1, hd⟩ := h
  unfold gradVar
  rcases eq_or_lt_of_le h0 with h0' | h0'
  · have hle : c01 ^ 2 ≤ 0 := by nlinarith
    have hc01 : c01 = 0 :=
      (pow_eq_zero_iff two_ne_zero).1 (le_antisymm hle (sq_nonneg c01))
    rw [← h0', hc01]
    nlinarith [mul_nonneg (sq_nonneg dgb) h1]
  · nlinarith [sq_nonneg (dgm * c00 + dgb * c01),
      mul_nonneg (sq_nonneg dgb) (sub_nonneg.2 hd)]

lemma gradVar_identity (c00 c01 c11 : ℚ) : gradVar c00 c01 c11 1 0 = c00 := by
  unfold gradVar
  ring

/-- C1: for every non-empty sample set with at least two distinct x-values
and strictly positive per-point uncertainties, fitWLS succeeds and the
returned slope and intercept minimize the weighted sum of squared
residuals chi2; moreover the returned covariance matrix is exactly the
inverse of the normal-equations matrix
[[sumWxx, sumWx], [sumWx, sumW]] built from the absolute weights
1 / sigma_i^2 (four product identities saying Cov times the matrix is the
identity), with no reduced-chi-square rescaling. -/
theorem fit_minimizes_chi2_and_cov_is_inverse_hessian
    (x y σ : Fin n → ℚ) (hσ : ∀ i, 0 < σ i)
    (i0 j0 : Fin n) (hx : x i0 ≠ x j0) :
    ∃ r : FitResult, fitWLS x y σ = .ok r ∧
      (∀ m b : ℚ, chi2 x y σ r.m r.b ≤ chi2 x y σ m b) ∧
      r.c00 * sumWxx x (fun i => (σ i) ^ 2)
        + r.c01 * sumWx x (fun i => (σ i) ^ 2) = 1 ∧
      r.c00 * sumWx x (fun i => (σ i) ^ 2)
        + r.c01 * sumW (fun i => (σ i) ^ 2) = 0 ∧
      r.c01 * sumWxx x (fun i => (σ i) ^ 2)
        + r.c11 * sumWx x (fun i => (σ i) ^ 2) = 0 ∧
      r.c01 * sumWx x (fun i => (σ i) ^ 2)
        + r.c11 * sumW (fun i => (σ i) ^ 2) = 1 := by
  set v : Fin n → ℚ := fun i => (σ i) ^ 2 with hv
  have hvpos : ∀ i, 0 < v i := fun i => pow_pos (hσ i) 2
  have hΔpos : 0 < delta x v := delta_pos x v hvpos i0 j0 hx
  have hΔ : delta x v ≠ 0 := ne_of_gt hΔpos
  have hΔ' : sumW v * sumWxx x v - (sumWx x v) ^ 2 ≠ 0 := by
    unfold delta at hΔ; exact hΔ
  obtain ⟨hne1, hne2⟩ := normal_eqs x y v hΔ
  refine ⟨⟨(sumW v * sumWxy x y v - sumWx x v * sumWy y v) / delta x v,
          (sumWxx x v * sumWy y v - sumWx x v * sumWxy x y v) / delta x v,
          sumW v / delta x v, -(sumWx x v) / delta x v,
          sumWxx x v / delta x v⟩, ?_, ?_, ?_, ?_, ?_, ?_⟩
  · unfold fitWLS
    rw [← hv]
    unfold fitWLSvar
    rw [if_neg hΔ]
  · intro m b
    rw [chi2_eq_chi2v, chi2_eq_chi2v, ← hv]
    set mhat : ℚ :=
      (sumW v * sumWxy x y v - sumWx x v * sumWy y v) / delta x v with hm
    set bhat : ℚ :=
      (sumWxx x v * sumWy y v - sumWx x v * sumWxy x y v) / delta x v with hb
    have hshift := chi2v_shift x y v mhat bhat (m - mhat) (b - bhat) hne1 hne2
    have e1 : mhat + (m - mhat) = m := by ring
    have e2 : bhat + (b - bhat) = b := by ring
    rw [e1, e2] at hshift
    have hnn : 0 ≤ ∑ i, ((m - mhat) * x i + (b - bhat)) ^ 2 / v i :=
      Finset.sum_nonneg fun i _ =>
        div_nonneg (sq_nonneg _) (le_of_lt (hvpos i))
    linarith
  · unfold delta
    field_simp
    ring
  · unfold delta
    field_simp
    ring
  · unfold delta
    field_simp
    ring
  · unfold delta
    field_simp
    ring

/-- Closed instance of the C1 theorem on the two-point data set
x = (0, 1), y = (0, 1), sigma = (1, 1). -/
theorem fit_minimizes_chi2_witness :
    ∃ r : FitResult, fitWLS ![(0 : ℚ), 1] ![(0 : ℚ), 1] ![(1 : ℚ), 1] = .ok r ∧
      (∀ m b : ℚ, chi2 ![(0 : ℚ), 1] ![(0 : ℚ), 1] ![(1 : ℚ), 1] r.m r.b
          ≤ chi2 ![(0 : ℚ), 1] ![(0 : ℚ), 1] ![(1 : ℚ), 1] m b) ∧
      r.c00 * sumWxx ![(0 : ℚ), 1] (fun i => (![(1 : ℚ), 1] i) ^ 2)
        + r.c01 * sumWx ![(0 : ℚ), 1] (fun i => (![(1 : ℚ), 1] i) ^ 2) = 1 ∧
      r.c00 * sumWx ![(0 : ℚ), 1] (fun i => (![(1 : ℚ), 1] i) ^ 2)
        + r.c01 * sumW (fun i => (![(1 : ℚ), 1] i) ^ 2) = 0 ∧
      r.c01 * sumWxx ![(0 : ℚ), 1] (fun i => (![(1 : ℚ), 1] i) ^ 2)
        + r.c11 * sumWx ![(0 : ℚ), 1] (fun i => (![(1 : ℚ), 1] i) ^ 2) = 0 ∧
      r.c01 * sumWx ![(0 : ℚ), 1] (fun i => (![(1 : ℚ), 1] i) ^ 2)
        + r.c11 * sumW (fun i => (![(1 : ℚ), 1] i) ^ 2) = 1 :=
  fit_minimizes_chi2_and_cov_is_inverse_hessian
    ![(0 : ℚ), 1] ![(0 : ℚ), 1] ![(1 : ℚ), 1] (by decide) 0 1 (by decide)

/-- C2: for a symmetric positive semidefinite covariance, propagate
returns the value g m b together with the gradient-covariance variance,
which is non-negative, so the propagated sigma (its real square root) is
non-negative; for the identity function with gradient (1, 0) the
propagated variance is exactly the first covariance entry, so sigma is
exactly the square root of Cov[0][0]; and whenever the computed variance
is negative, propagate fails with NumericalError instead of returning a
value. -/
theorem propagate_contract :
    (∀ (m b c00 c01 c11 dgm dgb : ℚ) (g : ℚ → ℚ → ℚ), PSD2 c00 c01 c11 →
      propagate m b c00 c01 c11 g dgm dgb
          = .ok (g m b, gradVar c00 c01 c11 dgm dgb) ∧
        0 ≤ gradVar c00 c01 c11 dgm dgb ∧
        0 ≤ Real.sqrt ((gradVar c00 c01 c11 dgm dgb : ℚ) : ℝ)) ∧
    (∀ m b c00 c01 c11 : ℚ, PSD2 c00 c01 c11 →
      propagate m b c00 c01 c11 (fun a _ => a) 1 0 = .ok (m, c00) ∧
      Real.sqrt ((gradVar c00 c01 c11 1 0 : ℚ) : ℝ)
        = Real.sqrt ((c00 : ℚ) : ℝ)) ∧
    (∀ (m b c00 c01 c11 dgm dgb : ℚ) (g : ℚ → ℚ → ℚ),
      gradVar c00 c01 c11 dgm dgb < 0 →
      propagate m b c00 c01 c11 g dgm dgb = .error .numericalError) := by
  refine ⟨fun m b c00 c01 c11 dgm dgb g h => ?_,
    fun m b c00 c01 c11 h => ?_,
    fun m b c00 c01 c11 dgm dgb g h => ?_⟩
  · have hn := gradVar_nonneg c00 c01 c11 dgm dgb h
    refine ⟨?_, hn, Real.sqrt_nonneg _⟩
    unfold propagate
    rw [if_neg (not_lt.2 hn)]
  · constructor
    · unfold propagate
      rw [if_neg (not_lt.2 (gradVar_nonneg c00 c01 c11 1 0 h))]
      rw [gradVar_identity]
    · rw [gradVar_identity]
  · unfold propagate
    rw [if_pos h]

/-- Closed instance of the identity-propagation part of the C2 theorem on
the covariance of the absolute-zero regression case. -/
theorem propagate_contract_witness :
    propagate 4 1000 (1 / 20 : ℚ) (-3 / 4) (35 / 2) (fun a _ => a) 1 0
      = .ok (4, 1 / 20) :=
  (propagate_contract.2.1 4 1000 (1 / 20) (-3 / 4) (35 / 2)
    (by unfold PSD2; norm_num)).1

lemma sumW_scale (v : Fin n → ℚ) (c : ℚ) :
    sumW (fun i => c * v i) = (1 / c) * sumW v := by
  unfold sumW
  rw [Finset.mul_sum]
  exact Finset.sum_congr rfl fun i _ => by ring

lemma sumWx_scale (x v : Fin n → ℚ) (c : ℚ) :
    sumWx x (fun i => c * v i) = (1 / c) * sumWx x v := by
  unfold sumWx
  rw [Finset.mul_sum]
  exact Finset.sum_congr rfl fun i _ => by ring

lemma sumWy_scale (y v : Fin n → ℚ) (c : ℚ) :
    sumWy y (fun i => c * v i) = (1 / c) * sumWy y v := by
  unfold sumWy
  rw [Finset.mul_sum]
  exact Finset.sum_congr rfl fun i _ => by ring

lemma sumWxx_scale (x v : Fin n → ℚ) (c : ℚ) :
    sumWxx x (fun i => c * v i) = (1 / c) * sumWxx x v := by
  unfold sumWxx
  rw [Finset.mul_sum]
  exact Finset.sum_congr rfl fun i _ => by ring

lemma sumWxy_scale (x y v : Fin n → ℚ) (c : ℚ) :
    sumWxy x y (fun i => c * v i) = (1 / c) * sumWxy x y v := by
  unfold sumWxy
  rw [Finset.mul_sum]
  exact Finset.sum_congr rfl fun i _ => by ring

lemma delta_scale (x v : Fin n → ℚ) (c : ℚ) :
    delta x (fun i => c * v i) = (1 / c) ^ 2 * delta x v := by
  unfold delta
  rw [sumW_scale, sumWx_scale, sumWxx_scale]
  ring

lemma fitWLSvar_scale (x y v : Fin n → ℚ) (c : ℚ) (hc : c ≠ 0)
    (r : FitResult) (h : fitWLSvar x y v = .ok r) :
    fitWLSvar x y (fun i => c * v i)
      = .ok ⟨r.m, r.b, c * r.c00, c * r.c01, c * r.c11⟩ := by
  unfold fitWLSvar at h ⊢
  by_cases hΔ : delta x v = 0
  · rw [if_pos hΔ] at h
    exact absurd h (by simp)
  · rw [if_neg hΔ] at h
    have hr := Except.ok.inj h
    simp only [delta_scale, sumW_scale, sumWx_scale, sumWy_scale,
      sumWxx_scale, sumWxy_scale]
    have hcinv : (1 / c : ℚ) ^ 2 ≠ 0 := pow_ne_zero 2 (one_div_ne_zero hc)
    rw [if_neg (mul_ne_zero hcinv hΔ)]
    rw [← hr]
    simp only [Except.ok.injEq, FitResult.mk.injEq]
    refine ⟨?_, ?_, ?_, ?_, ?_⟩ <;> (field_simp; ring)

/-- C7: multiplying every per-point sigma by a positive constant k leaves
the fitted slope and intercept unchanged, multiplies every covariance
entry by k squared, and hence multiplies the parameter sigmas (the square
roots of the covariance diagonal) by exactly k. -/
theorem sigma_scale_invariance (x y σ : Fin n → ℚ) (k : ℚ) (hk : 0 < k)
    (r : FitResult) (h : fitWLS x y σ = .ok r) :
    ∃ r' : FitResult, fitWLS x y (fun i => k * σ i) = .ok r' ∧
      r'.m = r.m ∧ r'.b = r.b ∧
      r'.c00 = k ^ 2 * r.c00 ∧ r'.c01 = k ^ 2 * r.c01 ∧
      r'.c11 = k ^ 2 * r.c11 ∧
      Real.sqrt ((r'.c00 : ℚ) : ℝ) = k * Real.sqrt ((r.c00 : ℚ) : ℝ) ∧
      Real.sqrt ((r'.c11 : ℚ) : ℝ) = k * Real.sqrt ((r.c11 : ℚ) : ℝ) := by
  have hk2 : (k ^ 2 : ℚ) ≠ 0 := pow_ne_zero 2 (ne_of_gt hk)
  have hfe : (fun i => (k * σ i) ^ 2) = fun i => k ^ 2 * (σ i) ^ 2 :=
    funext fun i => by ring
  have hscaled := fitWLSvar_scale x y (fun i => (σ i) ^ 2) (k ^ 2) hk2 r h
  have hkR : (0 : ℝ) < (k : ℝ) := by exact_mod_cast hk
  refine ⟨⟨r.m, r.b, k ^ 2 * r.c00, k ^ 2 * r.c01, k ^ 2 * r.c11⟩, ?_,
    rfl, rfl, rfl, rfl, rfl, ?_, ?_⟩
  · unfold fitWLS
    rw [hfe]
    exact hscaled
  · show Real.sqrt ((k ^ 2 * r.c00 : ℚ) : ℝ) = k * Real.sqrt ((r.c00 : ℚ) : ℝ)
    push_cast
    rw [Real.sqrt_mul (by positivity), Real.sqrt_sq (le_of_lt hkR)]
  · show Real.sqrt ((k ^ 2 * r.c11 : ℚ) : ℝ) = k * Real.sqrt ((r.c11 : ℚ) : ℝ)
    push_cast
    rw [Real.sqrt_mul (by positivity), Real.sqrt_sq (le_of_lt hkR)]

/-- Closed instance of the C7 theorem at k = 2 on a two-point data set. -/
theorem sigma_scale_invariance_witness :
    ∃ r' : FitResult,
      fitWLS ![(0 : ℚ), 1] ![(0 : ℚ), 1] (fun i => 2 * ![(1 : ℚ), 1] i)
          = .ok r' ∧
      r'.m = (FitResult.mk 1 0 2 (-1) 1).m ∧
      r'.b = (FitResult.mk 1 0 2 (-1) 1).b ∧
      r'.c00 = 2 ^ 2 * (FitResult.mk 1 0 2 (-1) 1).c00 ∧
      r'.c01 = 2 ^ 2 * (FitResult.mk 1 0 2 (-1) 1).c01 ∧
      r'.c11 = 2 ^ 2 * (FitResult.mk 1 0 2 (-1) 1).c11 ∧
      Real.sqrt ((r'.c00 : ℚ) : ℝ)
        = 2 * Real.sqrt (((FitResult.mk 1 0 2 (-1) 1).c00 : ℚ) : ℝ) ∧
      Real.sqrt ((r'.c11 : ℚ) : ℝ)
        = 2 * Real.sqrt (((FitResult.mk 1 0 2 (-1) 1).c11 : ℚ) : ℝ) :=
  sigma_scale_invariance ![(0 : ℚ), 1] ![(0 : ℚ), 1] ![(1 : ℚ), 1] 2
    (by norm_num) (FitResult.mk 1 0 2 (-1) 1)
    (by norm_num [fitWLS, fitWLSvar, delta, sumW, sumWx, sumWy, sumWxx,
      sumWxy, Fin.sum_univ_succ])

/-- C5: a sample set whose x-values are all equal (which covers every set
with fewer than two distinct x-values) makes the fit fail with
SingularFitError rather than return slope or intercept values. -/
theorem degenerate_x_gives_singular_fit_error
    (x y σ : Fin n → ℚ) (hx : ∀ i j, x i = x j) :
    fitWLS x y σ = .error .singularFitError := by
  unfold fitWLS fitWLSvar
  rw [if_pos (delta_eq_zero_of_const x _ hx)]

/-- Closed instance of the C5 theorem on a two-point data set with
identical x-values. -/
theorem degenerate_x_witness :
    fitWLS ![(5 : ℚ), 5] ![(1 : ℚ), 2] ![(1 : ℚ), 1]
      = .error .singularFitError :=
  degenerate_x_gives_singular_fit_error ![(5 : ℚ), 5] ![(1 : ℚ), 2]
    ![(1 : ℚ), 1] (by decide)

/-- C4: on the absolute-zero regression data x = (0, 10, 20, 30),
y = (1000, 1040, 1080, 1120) with uniform sigma 5, the fit returns
exactly m = 4 and b = 1000 with covariance
[[1/20, -3/4], [-3/4, 35/2]], and propagating g(m, b) = -b/m with its
analytic gradient at (4, 1000) yields the value -250 with the finite
well-defined variance 7035/32, hence a derivable sigma. -/
theorem end_to_end_regression_case :
    fitWLS ![(0 : ℚ), 10, 20, 30] ![(1000 : ℚ), 1040, 1080, 1120]
        ![(5 : ℚ), 5, 5, 5]
      = .ok ⟨4, 1000, 1 / 20, -3 / 4, 35 / 2⟩ ∧
    propagate 4 1000 (1 / 20) (-3 / 4) (35 / 2) (fun m b => -b / m)
        (1000 / 4 ^ 2) (-(1 / 4))
      = .ok (-250, 7035 / 32) := by
  constructor
  · norm_num [fitWLS, fitWLSvar, delta, sumW, sumWx, sumWy, sumWxx, sumWxy,
      Fin.sum_univ_succ]
  · norm_num [propagate, gradVar]

end LabFit

namespace Cooling

/-- C3: whenever the first pass of the cooling fit succeeds with result
r1, the whole two-pass procedure equals a single refit with the effective
variances yerr_i^2 + (r1.m * xerr_i)^2 fixed by the pass-1 slope: exactly
two passes, no iteration to convergence, and the pass-2 result is the one
reported. -/
theorem coolingFit_two_pass (x y yerr xerr : Fin n → ℚ)
    (r1 : LabFit.FitResult)
    (h : LabFit.fitWLSvar x y (fun i => (yerr i) ^ 2) = .ok r1) :
    coolingFit x y yerr xerr
      = LabFit.fitWLSvar x y
          (fun i => (yerr i) ^ 2 + (r1.m * xerr i) ^ 2) := by
  unfold coolingFit
  rw [h]
  rfl

/-- Closed instance of the C3 theorem on a two-point data set. -/
theorem coolingFit_two_pass_witness :
    coolingFit ![(0 : ℚ), 1] ![(0 : ℚ), 1] ![(1 : ℚ), 1] ![(1 : ℚ), 1]
      = LabFit.fitWLSvar ![(0 : ℚ), 1] ![(0 : ℚ), 1]
          (fun i => (![(1 : ℚ), 1] i) ^ 2 + ((1 : ℚ) * ![(1 : ℚ), 1] i) ^ 2) :=
  coolingFit_two_pass ![(0 : ℚ), 1] ![(0 : ℚ), 1] ![(1 : ℚ), 1] ![(1 : ℚ), 1]
    ⟨1, 0, 2, -1, 1⟩ (by
      norm_num [LabFit.fitWLSvar, LabFit.delta, LabFit.sumW, LabFit.sumWx,
        LabFit.sumWy, LabFit.sumWxx, LabFit.sumWxy, Fin.sum_univ_succ])

/-- C9: the pass-2 effective uncertainty never falls below the absolute
y-only uncertainty of the same point, and consequently, for a point with
nonzero y-uncertainty, the pass-2 weight never exceeds the pass-1
weight. -/
theorem sigma_eff_dominates_y_err (yerr xerr : Fin n → ℚ) (m0 : ℚ)
    (i : Fin n) :
    |((yerr i : ℚ) : ℝ)| ≤ Real.sqrt ((sigma_eff_sq yerr xerr m0 i : ℚ) : ℝ) ∧
    (yerr i ≠ 0 →
      1 / sigma_eff_sq yerr xerr m0 i ≤ 1 / (yerr i) ^ 2) := by
  have hle : (yerr i) ^ 2 ≤ sigma_eff_sq yerr xerr m0 i := by
    unfold sigma_eff_sq
    nlinarith [sq_nonneg (m0 * xerr i)]
  constructor
  · have hcast : ((yerr i : ℚ) : ℝ) ^ 2 ≤ ((sigma_eff_sq yerr xerr m0 i : ℚ) : ℝ) := by
      exact_mod_cast hle
    calc |((yerr i : ℚ) : ℝ)|
        = Real.sqrt (((yerr i : ℚ) : ℝ) ^ 2) := (Real.sqrt_sq_eq_abs _).symm
      _ ≤ Real.sqrt ((sigma_eff_sq yerr xerr m0 i : ℚ) : ℝ) :=
          Real.sqrt_le_sqrt hcast
  · intro hy
    exact one_div_le_one_div_of_le
      (lt_of_le_of_ne (sq_nonneg _) (Ne.symm (pow_ne_zero 2 hy))) hle

/-- Closed instance of the weight part of the C9 theorem. -/
theorem sigma_eff_dominates_witness :
    1 / sigma_eff_sq ![(1 : ℚ)] ![(2 : ℚ)] 3 0 ≤ 1 / (![(1 : ℚ)] 0) ^ 2 :=
  (sigma_eff_dominates_y_err ![(1 : ℚ)] ![(2 : ℚ)] 3 0).2 (by decide)

/-- C10: with sigma_p defined as one percent of the measured pressure and
the log-space y-error as sigma_p divided by the pressure, every point with
nonzero pressure has y-error exactly 1/100, so the pass-1 fit of the
cooling script is uniformly weighted: all y-errors coincide and every
pass-1 weight equals 10000. -/
theorem pass1_weights_uniform (p_bar : Fin n → ℚ) (hp : ∀ i, p_bar i ≠ 0) :
    (∀ i, y_err p_bar i = 1 / 100) ∧
    (∀ i j, y_err p_bar i = y_err p_bar j) ∧
    (∀ i, (1 / (y_err p_bar i) ^ 2 : ℚ) = 10000) := by
  have h1 : ∀ i, y_err p_bar i = 1 / 100 := by
    intro i
    unfold y_err sigma_p
    rw [mul_div_assoc, div_self (hp i), mul_one]
  exact ⟨h1, fun i j => by rw [h1 i, h1 j],
    fun i => by rw [h1 i]; norm_num⟩

/-- Closed instance of the C10 theorem on a one-point pressure vector. -/
theorem pass1_weights_uniform_witness :
    y_err ![(2 : ℚ)] 0 = 1 / 100 :=
  (pass1_weights_uniform ![(2 : ℚ)] (by decide)).1 0

end Cooling

namespace SpecificHeat

open LabFit

/-- C8: the uncertainty the specific-heat script reports for the degrees
of freedom f = 2 / (kappa - 1) chains through kappa alone: the propagated
variance of f equals the square of the univariate derivative of
2 / (t - 1) at t = kappa.val times the propagated variance of kappa, so
sigma of f is exactly the absolute derivative times sigma of kappa,
computed from the value and sigma of kappa only. -/
theorem f_sigma_chains_through_kappa (m c00 c01 c11 : ℚ) :
    uvariance (specCov c00 c01 c11) (fMeasuredU m)
      = (2 / ((kappaU m).val - 1) ^ 2) ^ 2
        * uvariance (specCov c00 c01 c11) (kappaU m) ∧
    Real.sqrt ((uvariance (specCov c00 c01 c11) (fMeasuredU m) : ℚ) : ℝ)
      = |((2 / ((kappaU m).val - 1) ^ 2 : ℚ) : ℝ)|
        * Real.sqrt ((uvariance (specCov c00 c01 c11) (kappaU m) : ℚ) : ℝ) := by
  have hvar : uvariance (specCov c00 c01 c11) (fMeasuredU m)
      = (2 / ((kappaU m).val - 1) ^ 2) ^ 2
        * uvariance (specCov c00 c01 c11) (kappaU m) := by
    unfold uvariance fMeasuredU kappaU UVal.cdiv UVal.sub UVal.add UVal.mul
      UVal.const slopeU volumeU specCov
    simp only [Fin.sum_univ_three, Finset.mul_sum]
    norm_num [Matrix.cons_val_zero, Matrix.cons_val_one, Matrix.head_cons]
    ring
  refine ⟨hvar, ?_⟩
  rw [hvar]
  push_cast
  rw [Real.sqrt_mul (by positivity), Real.sqrt_sq_eq_abs]

end SpecificHeat

namespace Heating

/-- C6 counterexample: with a present but unreadable input file the read
raises PermissionError, which the load handler of the heating script does
not catch, so the run terminates with an unhandled fault instead of a
cleanly reported load failure. -/
theorem unreadable_input_faults :
    heatingRun (ReadResult.permissionDenied : ReadResult (HeatingData 2))
      = .error .unhandledFault := rfl

/-- C6 amended: a missing input file is caught and reported as a load
failure, the run aborts before any fit or propagation, writes no output
files and ends cleanly; a present but unreadable file instead terminates
the run with an unhandled fault, though still before any computation and
without writing output files. -/
theorem load_failure_behaviour :
    (∀ n : ℕ,
      heatingRun (ReadResult.fileNotFound : ReadResult (HeatingData n))
        = .ok { computed := false, outputsWritten := false }) ∧
    (∀ n : ℕ,
      heatingRun (ReadResult.permissionDenied : ReadResult (HeatingData n))
        = .error .unhandledFault) :=
  ⟨fun _ => rfl, fun _ => rfl⟩

end Heating
